import Mathlib

/-!
Verification of the merge-eligibility engine of the github webhook server
(`webhook_server_container/libs/github_api.py`).

The Python code is shallowly embedded: the state a handler reads (pull-request
labels, check runs, repository policy) is collected in explicit snapshot
structures, and each handler becomes a pure Lean function of the snapshot that
returns the decision together with the label/check-run mutations it performs.
String operations mirror the Python ones (`str.lower`, `str.split`,
`in`-substring tests, `str.strip`) and are implemented over the character
lists underlying `String` so that all definitions evaluate by `decide`/`rfl`.
-/

namespace WebhookVerify

/-! ### String helpers mirroring the Python string operations -/

/-- Python `s.lower()` (ASCII case folding, which is all the label machinery uses). -/
def lowerStr (s : String) : String := String.mk (s.data.map Char.toLower)

/-- Python `sub in s` on character lists: `sub` occurs contiguously in `l`. -/
def containsSubChars (sub : List Char) : List Char → Bool
  | [] => sub.isEmpty
  | c :: tl => sub.isPrefixOf (c :: tl) || containsSubChars sub tl

/-- Python `sub in s` (case-sensitive substring containment). -/
def strContainsSub (s sub : String) : Bool := containsSubChars sub.data s.data

/-- Python `s.startswith(pre)`. -/
def startsWithStr (s pre : String) : Bool := pre.data.isPrefixOf s.data

/-- Python `s.split("-")`: split on every single `'-'` character. -/
def splitDashChars : List Char → List (List Char)
  | [] => [[]]
  | c :: cs =>
    match splitDashChars cs with
    | [] => [[]]
    | h :: t => if c = '-' then [] :: h :: t else (c :: h) :: t

/-- Python `s.split("-")[-1]`: the segment after the last dash (the whole
string when it has no dash). -/
def lastSplitDash (s : String) : String := String.mk ((splitDashChars s.data).getLastD [])

/-- Python `s.split(sep)[-1]` for a multi-character separator: the suffix after
the last occurrence of `sep`, or the whole list when `sep` does not occur. -/
def lastSplitOnSub (sub : List Char) : List Char → List Char
  | [] => []
  | c :: tl =>
    if sub.isPrefixOf (c :: tl) && !containsSubChars sub ((c :: tl).drop sub.length) then
      (c :: tl).drop sub.length
    else if containsSubChars sub tl then lastSplitOnSub sub tl
    else c :: tl

/-- A whitespace character as stripped by Python `str.strip()`. -/
def isSpaceChar (c : Char) : Bool := c = ' ' || c = '\t' || c = '\n' || c = '\r'

/-- Python `s.strip()`: drop leading and trailing whitespace. -/
def trimStr (s : String) : String :=
  String.mk (((s.data.dropWhile isSpaceChar).reverse.dropWhile isSpaceChar).reverse)

/-! ### Constants from `utils/constants.py` -/

def canBeMergedStr : String := "can-be-merged"
def holdLabelStr : String := "hold"
def wipStr : String := "wip"
def verifiedLabelStr : String := "verified"
def successStr : String := "success"
def failureStr : String := "failure"
def queuedStr : String := "queued"
def inProgressStr : String := "in_progress"
def completedStr : String := "completed"
def approvedByLabelPref : String := "ApprovedBy-"
def changedRequestedByLabelPref : String := "ChangesRequestedBy-"
def commentedByLabelPref : String := "CommentedBy-"
def sizeLabelPref : String := "size/"

/-- Modelled from the spec: `LGTM_BY_LABEL_PREFIX` is imported by
`github_api.py` from `utils.constants` but is not defined in the sources
available under `src/`; the spec describes it as the LGTM-reviewer variant of
the dynamic reviewer labels, so it is a fixed label prefix.  None of the
theorems below depend on its exact value. -/
def lgtmByLabelPref : String := "LgtmBy-"

/-! ### Label store operations (`_add_label` / `_remove_label`, lines 456-469)

`_add_label` strips the name, refuses names longer than 49 characters, and is
a no-op when the label is already present; `_remove_label` is a no-op when the
label is absent.  Only the resulting label-name list is modelled (colors and
the bounded visibility poll are remote-platform concerns). -/

def addLabel (labels : List String) (label : String) : List String :=
  if (trimStr label).length > 49 then labels
  else if trimStr label ∈ labels then labels
  else labels ++ [trimStr label]

def removeLabel (labels : List String) (label : String) : List String :=
  if label ∈ labels then labels.filter (fun l => l != label) else labels

/-! ### Data model -/

/-- One check run attached to the head commit (name, status, conclusion);
`conclusion` is `none` while the check has not completed. -/
structure CheckRun where
  name : String
  status : String
  conclusion : Option String
deriving DecidableEq

/-- The state `check_if_can_be_merged` (github_api.py, lines 1329-1463) reads:
the pull request's labels, the head commit's check runs, the freshly computed
required status checks, and the repository policy fields of the handler. -/
structure PullRequestSnapshot where
  labels : List String
  checkRuns : List CheckRun
  requiredChecks : List String
  approvers : List String
  parentCommitter : String
  prMergeable : Bool
  isMerged : Bool
  canBeMergedRequiredLabels : List String
  autoMergeUsers : List String
deriving DecidableEq

/-- The decision reached by one evaluation. -/
inductive Decision where
  | skipped : Decision
  | isMergeable (autoMerge : Bool) : Decision
  | blocked (reasons : List String) : Decision
deriving DecidableEq

/-- What the evaluation reports for the `can-be-merged` check run. -/
inductive CheckReport where
  | notReported : CheckReport
  | reportSuccess : CheckReport
  | reportFailure (text : String) : CheckReport
deriving DecidableEq

/-- The outcome of one evaluation: the decision, the label list after the
evaluation's own label mutations, the final `can-be-merged` check report, and
whether the squash-merge action was invoked. -/
structure EvalResult where
  decision : Decision
  labels : List String
  report : CheckReport
  mergePerformed : Bool
deriving DecidableEq

/-! ### The merge-eligibility evaluator (`check_if_can_be_merged`)

Each `failure_output += ...` statement of the source appends one nonempty
chunk (every chunk ends in `"\n"`), so the accumulated string is modelled as
the list of appended chunks; the source's emptiness test of the string is the
emptiness test of the list, and the reported text is the join of the list. -/

/-- Lines 1358-1364: required check runs currently in progress, excluding the
`can-be-merged` check run itself. -/
def inProgressPred (requiredChecks : List String) (cr : CheckRun) : Bool :=
  cr.status == inProgressStr && cr.name != canBeMergedStr && decide (cr.name ∈ requiredChecks)

def checkRunsInProgress (s : PullRequestSnapshot) : List CheckRun :=
  s.checkRuns.filter (inProgressPred s.requiredChecks)

def checkRunsInProgressNames (s : PullRequestSnapshot) : List String :=
  (checkRunsInProgress s).map CheckRun.name

/-- Lines 1385-1395: a check run is collected as failed unless it is the
`can-be-merged` check, concluded `success` or `queued`, or not required. -/
def failedPred (requiredChecks : List String) (cr : CheckRun) : Bool :=
  !(cr.name == canBeMergedStr || cr.conclusion == some successStr
      || cr.conclusion == some queuedStr || !(decide (cr.name ∈ requiredChecks)))

def failedCheckRuns (s : PullRequestSnapshot) : List String :=
  (s.checkRuns.filter (failedPred s.requiredChecks)).map CheckRun.name

/-- Lines 1407-1411: one label's contribution to the changed-requests veto;
the reviewing user is recovered with `_label.split("-")[-1]`. -/
def changedRequestLabelReason (approvers : List String) (l : String) : Option String :=
  if strContainsSub (lowerStr l) (lowerStr changedRequestedByLabelPref) then
    if lastSplitDash l ∈ approvers then some "PR has changed requests from approvers\n"
    else none
  else none

def changedRequestReasons (s : PullRequestSnapshot) : List String :=
  s.labels.filterMap (changedRequestLabelReason s.approvers)

/-- Lines 1421-1427: a label counts as an approval when it contains the
(lowercased) `ApprovedBy-` prefix, its `split("-")[-1]` user is an approver,
and that user is not the parent committer. -/
def approvedLabelMatch (approvers : List String) (parentCommitter : String) (l : String) : Bool :=
  strContainsSub (lowerStr l) (lowerStr approvedByLabelPref)
    && decide (lastSplitDash l ∈ approvers)
    && parentCommitter != lastSplitDash l

def prApproved (s : PullRequestSnapshot) : Bool :=
  s.labels.any (approvedLabelMatch s.approvers s.parentCommitter)

/-- Lines 1413-1416. -/
def missingRequiredLabels (s : PullRequestSnapshot) : List String :=
  s.canBeMergedRequiredLabels.filter (fun r => !(decide (r ∈ s.labels)))

/-- Python `", ".join(...)`. -/
def commaJoin (l : List String) : String := String.intercalate ", " l

/-- Line 1370. -/
def reasonInProgress (s : PullRequestSnapshot) : List String :=
  if (checkRunsInProgressNames s).isEmpty then []
  else ["Some required check runs in progress " ++ commaJoin (checkRunsInProgressNames s) ++ "\n"]

/-- Line 1377. -/
def reasonHold (s : PullRequestSnapshot) : List String :=
  if holdLabelStr ∈ s.labels then ["Hold label exists.\n"] else []

/-- Line 1380. -/
def reasonWip (s : PullRequestSnapshot) : List String :=
  if wipStr ∈ s.labels then ["WIP label exists.\n"] else []

/-- Line 1383; the chunk reproduces the source's literal braces: the line is a
plain string missing the `f` prefix. -/
def reasonNotMergeable (s : PullRequestSnapshot) : List String :=
  if !s.prMergeable then ["PR is not mergeable: \x7bself.pull_request.mergeable_state\x7d\n"]
  else []

/-- Lines 1397-1403: reported only when some check run was collected as
failed, with the in-progress ones excluded from the printed names. -/
def reasonFailedChecks (s : PullRequestSnapshot) : List String :=
  if (failedCheckRuns s).isEmpty then []
  else ["Some check runs failed: "
          ++ commaJoin ((failedCheckRuns s).filter
              (fun n => !(decide (n ∈ checkRunsInProgressNames s))))
          ++ "\n"]

/-- Lines 1418-1419. -/
def reasonMissingLabels (s : PullRequestSnapshot) : List String :=
  if (missingRequiredLabels s).isEmpty then []
  else ["Missing required labels: " ++ commaJoin (missingRequiredLabels s) ++ "\n"]

/-- Lines 1429-1431. -/
def reasonNotApproved (s : PullRequestSnapshot) : List String :=
  if !(prApproved s) then
    ["Missing lgtm/approved from approvers: "
      ++ commaJoin (s.approvers.filter (fun a => a != s.parentCommitter)) ++ "\n"]
  else []

/-- The failure chunks appended to `failure_output`, in source order. -/
def failureReasons (s : PullRequestSnapshot) : List String :=
  reasonInProgress s ++ reasonHold s ++ reasonWip s ++ reasonNotMergeable s
    ++ reasonFailedChecks s ++ changedRequestReasons s ++ reasonMissingLabels s
    ++ reasonNotApproved s

/-- Lines 1433-1454: the branch on `pr_approved and not failure_output`.  On
the mergeable side the `can-be-merged` label is added, the check reports
success, and the squash-merge runs when the parent committer is auto-trusted;
on the blocked side the label is removed and the check reports failure with
the concatenated reasons. -/
def checkIfCanBeMergedBody (s : PullRequestSnapshot) : EvalResult :=
  if prApproved s && (failureReasons s).isEmpty then
    { decision := Decision.isMergeable (decide (s.parentCommitter ∈ s.autoMergeUsers))
      labels := addLabel s.labels canBeMergedStr
      report := CheckReport.reportSuccess
      mergePerformed := decide (s.parentCommitter ∈ s.autoMergeUsers) }
  else
    { decision := Decision.blocked (failureReasons s)
      labels := removeLabel s.labels canBeMergedStr
      report := CheckReport.reportFailure (String.join (failureReasons s))
      mergePerformed := false }

/-- `check_if_can_be_merged` (lines 1329-1463): the already-merged guard
(`skip_if_pull_request_already_merged`, lines 449-454) returns before any
mutation; otherwise the body runs. -/
def checkIfCanBeMerged (s : PullRequestSnapshot) : EvalResult :=
  if s.isMerged then
    { decision := Decision.skipped, labels := s.labels
      report := CheckReport.notReported, mergePerformed := false }
  else checkIfCanBeMergedBody s

/-- Replacing the current `can-be-merged` check run with a fresh one (the
check reporter keeps one logical instance per name). -/
def upsertCheckRun (runs : List CheckRun) (cr : CheckRun) : List CheckRun :=
  runs.filter (fun r => r.name != cr.name) ++ [cr]

/-- The next snapshot after one evaluation, assuming no intervening external
mutation: the evaluation's own label mutations, its `can-be-merged` check-run
report, and the merged flag when the squash-merge ran. -/
def applySelfEffects (s : PullRequestSnapshot) (r : EvalResult) : PullRequestSnapshot :=
  { s with
    labels := r.labels
    checkRuns :=
      match r.report with
      | CheckReport.notReported => s.checkRuns
      | CheckReport.reportSuccess =>
          upsertCheckRun s.checkRuns ⟨canBeMergedStr, completedStr, some successStr⟩
      | CheckReport.reportFailure _ =>
          upsertCheckRun s.checkRuns ⟨canBeMergedStr, completedStr, some failureStr⟩
    isMerged := s.isMerged || r.mergePerformed }

/-- One evaluation followed by its own state updates. -/
def runAndApply (s : PullRequestSnapshot) : PullRequestSnapshot :=
  applySelfEffects s (checkIfCanBeMerged s)

/-! ### `check_if_can_be_merged` with an escaping exception (lines 1456-1463)

The body calls the remote platform, so any statement of the `try` block can
raise.  The exception is modelled as the label list at the moment it is
raised (the body may have partially mutated the labels before failing); the
`except` clause logs, sets the output text, removes the `can-be-merged` label
and reports the check run as failed. -/

def mergeCheckErrText : String := "Failed to check if can be merged, check logs"

def checkIfCanBeMergedExc (s : PullRequestSnapshot) (exc : Option (List String)) : EvalResult :=
  if s.isMerged then
    { decision := Decision.skipped, labels := s.labels
      report := CheckReport.notReported, mergePerformed := false }
  else
    match exc with
    | none => checkIfCanBeMergedBody s
    | some partialLabels =>
        { decision := Decision.blocked [mergeCheckErrText]
          labels := removeLabel partialLabels canBeMergedStr
          report := CheckReport.reportFailure mergeCheckErrText
          mergePerformed := false }

/-! ### `add_size_label` (lines 630-660) -/

/-- The size bucket computed from `additions + deletions`. -/
def sizeBucket (size : Nat) : String :=
  if size < 20 then "XS"
  else if size < 50 then "S"
  else if size < 100 then "M"
  else if size < 300 then "L"
  else if size < 500 then "XL"
  else "XXL"

/-- `add_size_label`: return early when the computed label is already present;
otherwise remove the first existing `size/`-prefixed label (if any) and add
the computed one. -/
def add_size_label (labels : List String) (additions deletions : Nat) : List String :=
  let sizeLabel := sizeLabelPref ++ sizeBucket (additions + deletions)
  if sizeLabel ∈ labels then labels
  else
    match labels.filter (fun l => startsWithStr l sizeLabelPref) with
    | [] => addLabel labels sizeLabel
    | e :: _ => addLabel (removeLabel labels e) sizeLabel

/-! ### The `labeled`/`unlabeled` branch of `process_pull_request_webhook_data`
(lines 975-1001)

The handler lowercases the label name, returns early for `can-be-merged`,
tries to recover a reviewer from `ApprovedBy-`/`ChangesRequestedBy-` prefixes
with case-sensitive `startswith` on the lowercased name, and calls
`check_if_can_be_merged` when the recovered reviewer is an approver or when
the verified job is enabled and the label is `verified`.  The function returns
whether `check_if_can_be_merged` is invoked. -/

def processLabeledUnlabeled (labelName : String) (approvers : List String)
    (verifiedJob : Bool) : Bool :=
  let labeled := lowerStr labelName
  if labeled == canBeMergedStr then false
  else
    let rev1 : Option String :=
      if startsWithStr labeled approvedByLabelPref then
        some (String.mk (lastSplitOnSub approvedByLabelPref.data labeled.data))
      else none
    let rev2 : Option String :=
      if startsWithStr labeled changedRequestedByLabelPref then
        some (String.mk (lastSplitOnSub changedRequestedByLabelPref.data labeled.data))
      else rev1
    let reviewerIsApprover :=
      match rev2 with
      | some u => decide (u ∈ approvers)
      | none => false
    reviewerIsApprover || (verifiedJob && labeled == verifiedLabelStr)

/-! ### The `synchronize` branch (lines 904-915) and
`_process_verified_for_update_or_new_pull_request` (lines 1610-1625) -/

/-- The event state the synchronize flow reads: labels, the verified-job
flag, the pull-request author (`parent_committer`, line 871), the committer of
the new head commit (`last_committer`, line 208) and the auto-trusted list. -/
structure SyncEvent where
  labels : List String
  verifiedJob : Bool
  parentCommitter : String
  lastCommitter : String
  autoMergeUsers : List String
deriving DecidableEq

/-- What the flow does to the `verified` check run. -/
inductive VerifiedCheck where
  | unchanged : VerifiedCheck
  | setSuccess : VerifiedCheck
  | setQueued : VerifiedCheck
deriving DecidableEq

structure SyncOutcome where
  labels : List String
  verifiedCheck : VerifiedCheck
deriving DecidableEq

/-- A label removed on every new commit (lines 907-912). -/
def isReviewLabel (l : String) : Bool :=
  startsWithStr l approvedByLabelPref || startsWithStr l commentedByLabelPref
    || startsWithStr l changedRequestedByLabelPref || startsWithStr l lgtmByLabelPref

/-- `_process_verified_for_update_or_new_pull_request`: no-op unless the
verified job is enabled; the decision is keyed on the parent committer (the
pull-request author). -/
def processVerified (e : SyncEvent) (labels : List String) : SyncOutcome :=
  if !e.verifiedJob then { labels := labels, verifiedCheck := VerifiedCheck.unchanged }
  else if e.parentCommitter ∈ e.autoMergeUsers then
    { labels := addLabel labels verifiedLabelStr, verifiedCheck := VerifiedCheck.setSuccess }
  else
    { labels := removeLabel labels verifiedLabelStr, verifiedCheck := VerifiedCheck.setQueued }

/-- The label effects of the `synchronize` branch: remove every reviewer
label, then run the verified reset. -/
def processSynchronize (e : SyncEvent) : SyncOutcome :=
  processVerified e (e.labels.filter (fun l => !isReviewLabel l))

/-- Follows the spec's words for the synchronize rule, for comparison with
`processSynchronize`: "reset the `verified` check to `queued` unless the
pusher is in an auto-trusted list" — the decision is keyed on the pusher of
the new commit (the last committer), not on the pull-request author. -/
def processSynchronizeSpec (e : SyncEvent) : SyncOutcome :=
  let labels := e.labels.filter (fun l => !isReviewLabel l)
  if !e.verifiedJob then { labels := labels, verifiedCheck := VerifiedCheck.unchanged }
  else if e.lastCommitter ∈ e.autoMergeUsers then
    { labels := addLabel labels verifiedLabelStr, verifiedCheck := VerifiedCheck.setSuccess }
  else
    { labels := removeLabel labels verifiedLabelStr, verifiedCheck := VerifiedCheck.setQueued }

/-! ### `get_check_run_text` (lines 1761-1767) -/

/-- `get_check_run_text`: wrap combined stderr/stdout in a code fence and
truncate to 65534 characters, but only when `len(err) + len(out)` alone
already exceeds 65534. -/
def get_check_run_text (err out : String) : String :=
  let totalLen := err.length + out.length
  let text := "```\n" ++ err ++ "\n\n" ++ out ++ "\n```"
  if totalLen > 65534 then text.take 65534 else text

/-! ### Concrete snapshots used by the witnesses and counterexamples -/

/-- A plain blocked snapshot: nothing is approved. -/
def snapBlocked : PullRequestSnapshot :=
  { labels := []
    checkRuns := []
    requiredChecks := []
    approvers := ["alice"]
    parentCommitter := "bob"
    prMergeable := true
    isMerged := false
    canBeMergedRequiredLabels := []
    autoMergeUsers := [] }

/-- A clean approved snapshot: required check `tox` succeeded, alice approved. -/
def snapClean : PullRequestSnapshot :=
  { labels := ["ApprovedBy-alice", "branch-main"]
    checkRuns := [⟨"tox", "completed", some "success"⟩]
    requiredChecks := ["tox"]
    approvers := ["alice"]
    parentCommitter := "bob"
    prMergeable := true
    isMerged := false
    canBeMergedRequiredLabels := []
    autoMergeUsers := [] }

/-- The approver `bob-smith` requested changes, but their username contains
the separator `'-'`, so `split("-")[-1]` recovers `"smith"`, which is not an
approver: the veto is missed and the evaluation reaches mergeable. -/
def snapDashVeto : PullRequestSnapshot :=
  { labels := ["ChangesRequestedBy-bob-smith", "ApprovedBy-alice"]
    checkRuns := []
    requiredChecks := []
    approvers := ["alice", "bob-smith"]
    parentCommitter := "carol"
    prMergeable := true
    isMerged := false
    canBeMergedRequiredLabels := []
    autoMergeUsers := [] }

/-- A veto by an approver whose username has no dash. -/
def snapVeto : PullRequestSnapshot :=
  { snapDashVeto with labels := ["ChangesRequestedBy-dave", "ApprovedBy-alice"]
                      approvers := ["alice", "dave"] }

/-- A required check still in progress. -/
def snapInProgress : PullRequestSnapshot :=
  { snapClean with checkRuns := [⟨"tox", "in_progress", none⟩] }

/-- A clean approved snapshot whose author is auto-merge trusted. -/
def snapAutoMerge : PullRequestSnapshot :=
  { snapClean with autoMergeUsers := ["bob"] }

/-- A synchronize event whose author is trusted but whose pusher is not. -/
def syncEventAuthorTrusted : SyncEvent :=
  { labels := ["ApprovedBy-alice", "verified", "size/M"]
    verifiedJob := true
    parentCommitter := "alice"
    lastCommitter := "mallory"
    autoMergeUsers := ["alice"] }

/-- A synchronize event with an untrusted author. -/
def syncEventUntrusted : SyncEvent :=
  { syncEventAuthorTrusted with parentCommitter := "carol", autoMergeUsers := [] }

/-- An error output of exactly 65534 characters: `len(err) + len(out)` does
not exceed 65534, yet the formatted text does exceed the platform limit. -/
def errAt65534 : String := String.mk (List.replicate 65534 'a')

/-- The partial label state used by the exception-path witness. -/
def excLabels : List String := ["can-be-merged", "size/M"]

/-! ### Sanity checks of the helpers on concrete inputs -/

example : lowerStr "ApprovedBy-Alice" = "approvedby-alice" := by decide
example : strContainsSub "xchangesrequestedby-a" "changesrequestedby-" = true := by decide
example : strContainsSub "can-be-merged" "approvedby-" = false := by decide
example : lastSplitDash "ChangesRequestedBy-bob-smith" = "smith" := by decide
example : lastSplitDash "ApprovedBy-alice" = "alice" := by decide
example : lastSplitDash "abc" = "abc" := by decide
example : startsWithStr "size/XS" "size/" = true := by decide
example : trimStr " hold " = "hold" := by decide
example : String.mk (lastSplitOnSub "By-".data "xBy-aBy-b".data) = "b" := by decide
example : String.mk (lastSplitOnSub "By-".data "abc".data) = "abc" := by decide
example : addLabel ["a"] "a" = ["a"] := by decide
example : addLabel ["a"] "b" = ["a", "b"] := by decide
example : removeLabel ["a", "b"] "a" = ["b"] := by decide
example : removeLabel ["a"] "c" = ["a"] := by decide

example : (checkIfCanBeMerged snapDashVeto).decision = Decision.isMergeable false := by decide
example : (checkIfCanBeMerged snapClean).decision = Decision.isMergeable false := by decide
example : (checkIfCanBeMerged snapClean).report = CheckReport.reportSuccess := by decide
example : (checkIfCanBeMerged snapAutoMerge).mergePerformed = true := by decide
example : (checkIfCanBeMerged snapVeto).decision
    = Decision.blocked ["PR has changed requests from approvers\n"] := by decide
example : (checkIfCanBeMerged snapInProgress).decision
    = Decision.blocked ["Some required check runs in progress tox\n",
                        "Some check runs failed: \n"] := by decide
example : processLabeledUnlabeled "ApprovedBy-alice" ["alice"] true = false := by decide
example : processLabeledUnlabeled "verified" ["alice"] true = true := by decide
example : (processSynchronize syncEventAuthorTrusted).verifiedCheck
    = VerifiedCheck.setSuccess := by decide
example : (processSynchronizeSpec syncEventAuthorTrusted).verifiedCheck
    = VerifiedCheck.setQueued := by decide
example : (processSynchronize syncEventUntrusted).labels = ["size/M"] := by decide
example : add_size_label ["size/L", "bug"] 3 4 = ["bug", "size/XS"] := by decide

/-! ### Lemmas about the label store operations -/

theorem addLabel_eq_of_plain (labels : List String) (label : String)
    (htrim : trimStr label = label) (hlen : ¬ label.length > 49) :
    addLabel labels label = if label ∈ labels then labels else labels ++ [label] := by
  unfold addLabel
  rw [htrim, if_neg hlen]

theorem trim_cbm : trimStr canBeMergedStr = canBeMergedStr := by decide

theorem cbm_short : ¬ canBeMergedStr.length > 49 := by decide

theorem addLabel_cbm (labels : List String) :
    addLabel labels canBeMergedStr
      = if canBeMergedStr ∈ labels then labels else labels ++ [canBeMergedStr] :=
  addLabel_eq_of_plain labels canBeMergedStr trim_cbm cbm_short

theorem mem_addLabel_self (labels : List String) (label : String)
    (htrim : trimStr label = label) (hlen : ¬ label.length > 49) :
    label ∈ addLabel labels label := by
  rw [addLabel_eq_of_plain labels label htrim hlen]
  split
  · assumption
  · exact List.mem_append_right _ (List.mem_singleton.mpr rfl)

theorem mem_addLabel_cbm (labels : List String) :
    canBeMergedStr ∈ addLabel labels canBeMergedStr :=
  mem_addLabel_self labels canBeMergedStr trim_cbm cbm_short

theorem addLabel_cbm_idem (labels : List String) :
    addLabel (addLabel labels canBeMergedStr) canBeMergedStr
      = addLabel labels canBeMergedStr := by
  rw [addLabel_cbm (addLabel labels canBeMergedStr), if_pos (mem_addLabel_cbm labels)]

theorem not_mem_removeLabel (labels : List String) (label : String) :
    label ∉ removeLabel labels label := by
  unfold removeLabel
  by_cases h : label ∈ labels
  · rw [if_pos h]
    intro hmem
    rcases List.mem_filter.mp hmem with ⟨_, hne⟩
    simp at hne
  · rw [if_neg h]
    exact h

theorem removeLabel_of_not_mem (labels : List String) (label : String)
    (h : label ∉ labels) : removeLabel labels label = labels := by
  unfold removeLabel
  rw [if_neg h]

theorem removeLabel_idem (labels : List String) (label : String) :
    removeLabel (removeLabel labels label) label = removeLabel labels label :=
  removeLabel_of_not_mem _ _ (not_mem_removeLabel labels label)

theorem mem_removeLabel_of_ne (labels : List String) (x label : String) (hx : x ≠ label) :
    x ∈ removeLabel labels label ↔ x ∈ labels := by
  unfold removeLabel
  by_cases h : label ∈ labels
  · rw [if_pos h]
    simp [List.mem_filter, hx]
  · rw [if_neg h]

theorem mem_addLabel_of_ne (labels : List String) (x label : String)
    (htrim : trimStr label = label) (hlen : ¬ label.length > 49) (hx : x ≠ label) :
    x ∈ addLabel labels label ↔ x ∈ labels := by
  rw [addLabel_eq_of_plain labels label htrim hlen]
  by_cases h : label ∈ labels
  · rw [if_pos h]
  · rw [if_neg h]
    simp [hx]

/-! ### List lemmas: removing or appending an irrelevant element is invisible
to `any` and `filterMap` -/

theorem any_filter_ne (l : List String) (p : String → Bool) (y : String)
    (hy : p y = false) : (l.filter (fun a => a != y)).any p = l.any p := by
  induction l with
  | nil => rfl
  | cons a tl ih =>
    by_cases h : a = y
    · subst h
      simp [List.filter_cons, List.any_cons, hy, ih]
    · simp [List.filter_cons, List.any_cons, h, ih]

theorem filterMap_filter_ne (l : List String) (f : String → Option String) (y : String)
    (hf : f y = none) : (l.filter (fun a => a != y)).filterMap f = l.filterMap f := by
  induction l with
  | nil => rfl
  | cons a tl ih =>
    by_cases h : a = y
    · subst h
      simp [List.filter_cons, List.filterMap_cons, hf, ih]
    · simp [List.filter_cons, List.filterMap_cons, h, ih]

theorem any_append_single (l : List String) (p : String → Bool) (y : String)
    (hy : p y = false) : (l ++ [y]).any p = l.any p := by
  simp [List.any_append, hy]

theorem filterMap_append_single (l : List String) (f : String → Option String) (y : String)
    (hf : f y = none) : (l ++ [y]).filterMap f = l.filterMap f := by
  simp [List.filterMap_append, hf]

theorem any_addLabel_cbm (labels : List String) (p : String → Bool)
    (hp : p canBeMergedStr = false) :
    (addLabel labels canBeMergedStr).any p = labels.any p := by
  rw [addLabel_cbm]
  split
  · rfl
  · exact any_append_single labels p canBeMergedStr hp

theorem any_removeLabel_cbm (labels : List String) (p : String → Bool)
    (hp : p canBeMergedStr = false) :
    (removeLabel labels canBeMergedStr).any p = labels.any p := by
  unfold removeLabel
  split
  · exact any_filter_ne labels p canBeMergedStr hp
  · rfl

theorem filterMap_addLabel_cbm (labels : List String) (f : String → Option String)
    (hf : f canBeMergedStr = none) :
    (addLabel labels canBeMergedStr).filterMap f = labels.filterMap f := by
  rw [addLabel_cbm]
  split
  · rfl
  · exact filterMap_append_single labels f canBeMergedStr hf

theorem filterMap_removeLabel_cbm (labels : List String) (f : String → Option String)
    (hf : f canBeMergedStr = none) :
    (removeLabel labels canBeMergedStr).filterMap f = labels.filterMap f := by
  unfold removeLabel
  split
  · exact filterMap_filter_ne labels f canBeMergedStr hf
  · rfl

/-! ### String lemmas: prefixes are substrings, and `split("-")[-1]` recovers
a dashless username from a `Prefix-username` label -/

theorem isPrefixOf_append_self (a b : List Char) : a.isPrefixOf (a ++ b) = true := by
  induction a with
  | nil =>
    show List.isPrefixOf [] b = true
    cases b <;> rfl
  | cons c tl ih =>
    show ((c == c) && tl.isPrefixOf (tl ++ b)) = true
    rw [beq_self_eq_true, ih, Bool.true_and]

theorem containsSub_of_pref (sub rest : List Char) :
    containsSubChars sub (sub ++ rest) = true := by
  cases sub with
  | nil =>
    cases rest with
    | nil => rfl
    | cons c tl =>
      show (List.isPrefixOf [] (c :: tl) || containsSubChars [] tl) = true
      cases h : List.isPrefixOf [] (c :: tl) <;> simp_all
  | cons c tl =>
    show containsSubChars (c :: tl) (c :: (tl ++ rest)) = true
    unfold containsSubChars
    rw [show c :: (tl ++ rest) = (c :: tl) ++ rest from rfl]
    rw [isPrefixOf_append_self]
    rfl

theorem lowerStr_append (a b : String) : lowerStr (a ++ b) = lowerStr a ++ lowerStr b := by
  unfold lowerStr
  rw [String.data_append, List.map_append]
  rfl

theorem strContainsSub_self_append (pre u : String) :
    strContainsSub (lowerStr (pre ++ u)) (lowerStr pre) = true := by
  rw [lowerStr_append]
  unfold strContainsSub
  rw [String.data_append]
  exact containsSub_of_pref _ _

theorem splitDash_ne_nil (l : List Char) : splitDashChars l ≠ [] := by
  cases l with
  | nil => simp [splitDashChars]
  | cons c cs =>
    unfold splitDashChars
    rcases h : splitDashChars cs with _ | ⟨hd, tl⟩
    · simp
    · by_cases hc : c = '-' <;> simp [hc]

theorem splitDash_no_dash (u : List Char) (h : '-' ∉ u) : splitDashChars u = [u] := by
  induction u with
  | nil => rfl
  | cons c tl ih =>
    have hc : ¬ c = '-' := fun e => h (e ▸ List.mem_cons_self c tl)
    have htl : '-' ∉ tl := fun m => h (List.mem_cons_of_mem c m)
    unfold splitDashChars
    rw [ih htl]
    simp [hc]

theorem splitDash_length_ge_two (l : List Char) (h : '-' ∈ l) :
    2 ≤ (splitDashChars l).length := by
  induction l with
  | nil => cases h
  | cons c tl ih =>
    unfold splitDashChars
    rcases hs : splitDashChars tl with _ | ⟨h', t'⟩
    · exact absurd hs (splitDash_ne_nil tl)
    · by_cases hc : c = '-'
      · simp [hc]
      · rcases List.mem_cons.mp h with he | htl
        · exact absurd he.symm hc
        · have h2 := ih htl
          rw [hs] at h2
          simp only [List.length_cons] at h2 ⊢
          simp only [hc, if_false]
          simp only [List.length_cons]
          omega

theorem getLastD_cons_cons (a b : List Char) (l : List (List Char)) (d : List Char) :
    (a :: b :: l).getLastD d = (b :: l).getLastD d := rfl

theorem getLastD_splitDash_append (a u : List Char) (h : '-' ∉ u) :
    (splitDashChars (a ++ '-' :: u)).getLastD [] = u := by
  induction a with
  | nil =>
    show (splitDashChars ('-' :: u)).getLastD [] = u
    unfold splitDashChars
    rw [splitDash_no_dash u h]
    rfl
  | cons c a' ih =>
    show (splitDashChars (c :: (a' ++ '-' :: u))).getLastD [] = u
    unfold splitDashChars
    rcases hs : splitDashChars (a' ++ '-' :: u) with _ | ⟨h', t'⟩
    · exact absurd hs (splitDash_ne_nil _)
    · have hlen : 2 ≤ (splitDashChars (a' ++ '-' :: u)).length :=
        splitDash_length_ge_two _ (List.mem_append_right a' (List.mem_cons_self _ _))
      rw [hs] at hlen
      rcases t' with _ | ⟨x, t''⟩
      · simp at hlen
      · have ih' := ih
        rw [hs, getLastD_cons_cons] at ih'
        by_cases hc : c = '-'
        · simp only [hc, if_pos]
          rw [getLastD_cons_cons, getLastD_cons_cons]
          exact ih'
        · simp only [hc, if_false]
          rw [getLastD_cons_cons]
          exact ih'

theorem lastSplitDash_of_pref (preBody : List Char) (pre u : String)
    (hpre : pre.data = preBody ++ ['-']) (h : '-' ∉ u.data) :
    lastSplitDash (pre ++ u) = u := by
  unfold lastSplitDash
  have hdata : (pre ++ u).data = preBody ++ '-' :: u.data := by
    rw [String.data_append, hpre, List.append_assoc]
    rfl
  rw [hdata, getLastD_splitDash_append preBody u.data h]

theorem lastSplitDash_approvedBy (u : String) (h : '-' ∉ u.data) :
    lastSplitDash (approvedByLabelPref ++ u) = u :=
  lastSplitDash_of_pref "ApprovedBy".data approvedByLabelPref u (by decide) h

theorem lastSplitDash_changesRequested (u : String) (h : '-' ∉ u.data) :
    lastSplitDash (changedRequestedByLabelPref ++ u) = u :=
  lastSplitDash_of_pref "ChangesRequestedBy".data changedRequestedByLabelPref u (by decide) h

/-! ### The evaluator ignores its own `can-be-merged` check run and label -/

theorem filter_upsert_cbm (runs : List CheckRun) (st : String) (c : Option String)
    (p : CheckRun → Bool) (hp : ∀ cr : CheckRun, cr.name = canBeMergedStr → p cr = false) :
    (upsertCheckRun runs ⟨canBeMergedStr, st, c⟩).filter p = runs.filter p := by
  unfold upsertCheckRun
  rw [List.filter_append]
  have h1 : List.filter p [(⟨canBeMergedStr, st, c⟩ : CheckRun)] = [] := by
    simp [List.filter_cons, hp ⟨canBeMergedStr, st, c⟩ rfl]
  rw [h1, List.append_nil, List.filter_filter]
  apply List.filter_congr
  intro cr _
  by_cases hn : cr.name = canBeMergedStr
  · rw [hp cr hn]
    rfl
  · have hbne : (cr.name != canBeMergedStr) = true := by simp [hn]
    rw [hbne, Bool.and_true]

theorem inProgressPred_cbm (req : List String) (cr : CheckRun)
    (hn : cr.name = canBeMergedStr) : inProgressPred req cr = false := by
  simp [inProgressPred, hn]

theorem failedPred_cbm (req : List String) (cr : CheckRun)
    (hn : cr.name = canBeMergedStr) : failedPred req cr = false := by
  simp [failedPred, hn]

theorem approvedLabelMatch_cbm (approvers : List String) (pc : String) :
    approvedLabelMatch approvers pc canBeMergedStr = false := by
  unfold approvedLabelMatch
  rw [show strContainsSub (lowerStr canBeMergedStr) (lowerStr approvedByLabelPref) = false
      by decide]
  rfl

theorem changedRequestLabelReason_cbm (approvers : List String) :
    changedRequestLabelReason approvers canBeMergedStr = none := by
  unfold changedRequestLabelReason
  rw [show strContainsSub (lowerStr canBeMergedStr) (lowerStr changedRequestedByLabelPref)
        = false by decide]
  rfl

/-! ### Invariance of every evaluator input under the evaluator's own effects -/

theorem runAndApply_checkRuns_filter (s : PullRequestSnapshot) (p : CheckRun → Bool)
    (hp : ∀ cr : CheckRun, cr.name = canBeMergedStr → p cr = false) :
    (runAndApply s).checkRuns.filter p = s.checkRuns.filter p := by
  have hruns : (runAndApply s).checkRuns
      = match (checkIfCanBeMerged s).report with
        | CheckReport.notReported => s.checkRuns
        | CheckReport.reportSuccess =>
            upsertCheckRun s.checkRuns ⟨canBeMergedStr, completedStr, some successStr⟩
        | CheckReport.reportFailure _ =>
            upsertCheckRun s.checkRuns ⟨canBeMergedStr, completedStr, some failureStr⟩ := rfl
  rw [hruns]
  rcases (checkIfCanBeMerged s).report with _ | _ | txt
  · rfl
  · exact filter_upsert_cbm s.checkRuns completedStr (some successStr) p hp
  · exact filter_upsert_cbm s.checkRuns completedStr (some failureStr) p hp

theorem runAndApply_inProgressNames (s : PullRequestSnapshot) :
    checkRunsInProgressNames (runAndApply s) = checkRunsInProgressNames s := by
  unfold checkRunsInProgressNames checkRunsInProgress
  exact congrArg (List.map CheckRun.name)
    (runAndApply_checkRuns_filter s (inProgressPred s.requiredChecks)
      (inProgressPred_cbm s.requiredChecks))

theorem runAndApply_failedCheckRuns (s : PullRequestSnapshot) :
    failedCheckRuns (runAndApply s) = failedCheckRuns s := by
  unfold failedCheckRuns
  exact congrArg (List.map CheckRun.name)
    (runAndApply_checkRuns_filter s (failedPred s.requiredChecks)
      (failedPred_cbm s.requiredChecks))

theorem eval_labels_any (s : PullRequestSnapshot) (p : String → Bool)
    (hp : p canBeMergedStr = false) :
    ((checkIfCanBeMerged s).labels).any p = s.labels.any p := by
  unfold checkIfCanBeMerged
  by_cases hm : s.isMerged
  · rw [if_pos hm]
  · rw [if_neg hm]
    have hbody : (checkIfCanBeMergedBody s).labels
        = if prApproved s && (failureReasons s).isEmpty then addLabel s.labels canBeMergedStr
          else removeLabel s.labels canBeMergedStr := by
      unfold checkIfCanBeMergedBody
      split
      · rfl
      · rfl
    rw [hbody]
    split
    · exact any_addLabel_cbm s.labels p hp
    · exact any_removeLabel_cbm s.labels p hp

theorem eval_labels_filterMap (s : PullRequestSnapshot) (f : String → Option String)
    (hf : f canBeMergedStr = none) :
    ((checkIfCanBeMerged s).labels).filterMap f = s.labels.filterMap f := by
  unfold checkIfCanBeMerged
  by_cases hm : s.isMerged
  · rw [if_pos hm]
  · rw [if_neg hm]
    have hbody : (checkIfCanBeMergedBody s).labels
        = if prApproved s && (failureReasons s).isEmpty then addLabel s.labels canBeMergedStr
          else removeLabel s.labels canBeMergedStr := by
      unfold checkIfCanBeMergedBody
      split
      · rfl
      · rfl
    rw [hbody]
    split
    · exact filterMap_addLabel_cbm s.labels f hf
    · exact filterMap_removeLabel_cbm s.labels f hf

theorem mem_eval_labels (s : PullRequestSnapshot) (x : String)
    (hx : x ≠ canBeMergedStr) :
    x ∈ (checkIfCanBeMerged s).labels ↔ x ∈ s.labels := by
  unfold checkIfCanBeMerged
  by_cases hm : s.isMerged
  · rw [if_pos hm]
  · rw [if_neg hm]
    have hbody : (checkIfCanBeMergedBody s).labels
        = if prApproved s && (failureReasons s).isEmpty then addLabel s.labels canBeMergedStr
          else removeLabel s.labels canBeMergedStr := by
      unfold checkIfCanBeMergedBody
      split
      · rfl
      · rfl
    rw [hbody]
    split
    · exact mem_addLabel_of_ne s.labels x canBeMergedStr trim_cbm cbm_short hx
    · exact mem_removeLabel_of_ne s.labels x canBeMergedStr hx

theorem runAndApply_prApproved (s : PullRequestSnapshot) :
    prApproved (runAndApply s) = prApproved s := by
  unfold prApproved
  exact eval_labels_any s (approvedLabelMatch s.approvers s.parentCommitter)
    (approvedLabelMatch_cbm s.approvers s.parentCommitter)

theorem runAndApply_changedRequestReasons (s : PullRequestSnapshot) :
    changedRequestReasons (runAndApply s) = changedRequestReasons s := by
  unfold changedRequestReasons
  exact eval_labels_filterMap s (changedRequestLabelReason s.approvers)
    (changedRequestLabelReason_cbm s.approvers)

theorem runAndApply_missingRequiredLabels (s : PullRequestSnapshot)
    (h1 : canBeMergedStr ∉ s.canBeMergedRequiredLabels) :
    missingRequiredLabels (runAndApply s) = missingRequiredLabels s := by
  unfold missingRequiredLabels
  apply List.filter_congr
  intro r hr
  have hne : r ≠ canBeMergedStr := fun e => h1 (e ▸ hr)
  have hd : decide (r ∈ (runAndApply s).labels) = decide (r ∈ s.labels) :=
    decide_eq_decide.mpr (mem_eval_labels s r hne)
  show (!decide (r ∈ (runAndApply s).labels)) = !decide (r ∈ s.labels)
  rw [hd]

theorem runAndApply_reasonInProgress (s : PullRequestSnapshot) :
    reasonInProgress (runAndApply s) = reasonInProgress s := by
  unfold reasonInProgress
  rw [runAndApply_inProgressNames]

theorem runAndApply_reasonHold (s : PullRequestSnapshot) :
    reasonHold (runAndApply s) = reasonHold s := by
  unfold reasonHold
  exact if_congr (mem_eval_labels s holdLabelStr (by decide)) rfl rfl

theorem runAndApply_reasonWip (s : PullRequestSnapshot) :
    reasonWip (runAndApply s) = reasonWip s := by
  unfold reasonWip
  exact if_congr (mem_eval_labels s wipStr (by decide)) rfl rfl

theorem runAndApply_reasonNotMergeable (s : PullRequestSnapshot) :
    reasonNotMergeable (runAndApply s) = reasonNotMergeable s := rfl

theorem runAndApply_reasonFailedChecks (s : PullRequestSnapshot) :
    reasonFailedChecks (runAndApply s) = reasonFailedChecks s := by
  unfold reasonFailedChecks
  rw [runAndApply_failedCheckRuns, runAndApply_inProgressNames]

theorem runAndApply_reasonMissingLabels (s : PullRequestSnapshot)
    (h1 : canBeMergedStr ∉ s.canBeMergedRequiredLabels) :
    reasonMissingLabels (runAndApply s) = reasonMissingLabels s := by
  unfold reasonMissingLabels
  rw [runAndApply_missingRequiredLabels s h1]

theorem runAndApply_reasonNotApproved (s : PullRequestSnapshot) :
    reasonNotApproved (runAndApply s) = reasonNotApproved s := by
  unfold reasonNotApproved
  rw [runAndApply_prApproved]
  rfl

theorem runAndApply_failureReasons (s : PullRequestSnapshot)
    (h1 : canBeMergedStr ∉ s.canBeMergedRequiredLabels) :
    failureReasons (runAndApply s) = failureReasons s := by
  unfold failureReasons
  rw [runAndApply_reasonInProgress, runAndApply_reasonHold, runAndApply_reasonWip,
    runAndApply_reasonNotMergeable, runAndApply_reasonFailedChecks,
    runAndApply_changedRequestReasons, runAndApply_reasonMissingLabels s h1,
    runAndApply_reasonNotApproved]

theorem runAndApply_of_merged (s : PullRequestSnapshot) (hm : s.isMerged = true) :
    runAndApply s = s := by
  unfold runAndApply checkIfCanBeMerged
  rw [if_pos hm]
  unfold applySelfEffects
  cases s
  simp

theorem eval_of_merged (s : PullRequestSnapshot) (hm : s.isMerged = true) :
    checkIfCanBeMerged s
      = { decision := Decision.skipped, labels := s.labels
          report := CheckReport.notReported, mergePerformed := false } := by
  unfold checkIfCanBeMerged
  rw [if_pos hm]

/-- C1: the merge-eligibility evaluation is a pure, idempotent function of the
label/check-run snapshot: running it a second time after its own state updates
(the `can-be-merged` label toggle and the `can-be-merged` check-run report),
with no intervening external label or check-run mutation, yields the same
decision, the same failure reasons, the same labels and the same report.  The
hypotheses say that the repository policy does not list `can-be-merged` itself
as a required label and that the first run did not auto-merge (the
auto-merged case is the already-merged guard of C6). -/
theorem merge_evaluation_idempotent (s : PullRequestSnapshot)
    (h1 : canBeMergedStr ∉ s.canBeMergedRequiredLabels)
    (h2 : (checkIfCanBeMerged s).mergePerformed = false) :
    checkIfCanBeMerged (runAndApply s) = checkIfCanBeMerged s := by
  cases hm : s.isMerged with
  | true => rw [runAndApply_of_merged s hm]
  | false =>
    have hm' : (runAndApply s).isMerged = false := by
      show (s.isMerged || (checkIfCanBeMerged s).mergePerformed) = false
      rw [hm, h2]
      rfl
    have e1 : checkIfCanBeMerged (runAndApply s) = checkIfCanBeMergedBody (runAndApply s) := by
      unfold checkIfCanBeMerged
      rw [hm']
      rfl
    have e2 : checkIfCanBeMerged s = checkIfCanBeMergedBody s := by
      unfold checkIfCanBeMerged
      rw [hm]
      rfl
    rw [e1, e2]
    have hfr := runAndApply_failureReasons s h1
    have hap := runAndApply_prApproved s
    unfold checkIfCanBeMergedBody
    rw [hfr, hap]
    by_cases hc : (prApproved s && (failureReasons s).isEmpty) = true
    · rw [if_pos hc, if_pos hc]
      have hlab : (runAndApply s).labels = addLabel s.labels canBeMergedStr := by
        show (checkIfCanBeMerged s).labels = _
        rw [e2]
        unfold checkIfCanBeMergedBody
        rw [if_pos hc]
      rw [hlab, addLabel_cbm_idem]
      rfl
    · rw [if_neg hc, if_neg hc]
      have hlab : (runAndApply s).labels = removeLabel s.labels canBeMergedStr := by
        show (checkIfCanBeMerged s).labels = _
        rw [e2]
        unfold checkIfCanBeMergedBody
        rw [if_neg hc]
      rw [hlab, removeLabel_idem]

/-- C1 witness: the idempotence theorem applied to a concrete blocked
snapshot. -/
theorem merge_evaluation_idempotent_witness :
    checkIfCanBeMerged (runAndApply snapBlocked) = checkIfCanBeMerged snapBlocked :=
  merge_evaluation_idempotent snapBlocked (by decide) (by decide)

/-- C6: once the evaluation has performed the automatic squash-merge, every
subsequent invocation — after any number of further trigger rounds — returns
at the already-merged guard: it decides `skipped`, performs no merge, reports
nothing, changes no label, and the state itself no longer changes. -/
theorem auto_merge_invoked_exactly_once (s : PullRequestSnapshot) (k : Nat)
    (h : (checkIfCanBeMerged s).mergePerformed = true) :
    runAndApply^[k + 1] s = runAndApply s
      ∧ checkIfCanBeMerged (runAndApply^[k + 1] s)
          = { decision := Decision.skipped, labels := (runAndApply s).labels
              report := CheckReport.notReported, mergePerformed := false } := by
  have hM : (runAndApply s).isMerged = true := by
    show (s.isMerged || (checkIfCanBeMerged s).mergePerformed) = true
    rw [h, Bool.or_true]
  have hfix : runAndApply (runAndApply s) = runAndApply s :=
    runAndApply_of_merged _ hM
  have hiter : runAndApply^[k + 1] s = runAndApply s := by
    rw [Function.iterate_succ_apply]
    exact Function.iterate_fixed hfix k
  refine ⟨hiter, ?_⟩
  rw [hiter]
  exact eval_of_merged _ hM

/-- C6 witness: a trusted author's clean pull request is auto-merged on the
first evaluation, and the next trigger returns at the guard. -/
theorem auto_merge_invoked_exactly_once_witness :
    runAndApply^[1] snapAutoMerge = runAndApply snapAutoMerge
      ∧ checkIfCanBeMerged (runAndApply^[1] snapAutoMerge)
          = { decision := Decision.skipped, labels := (runAndApply snapAutoMerge).labels
              report := CheckReport.notReported, mergePerformed := false } :=
  auto_merge_invoked_exactly_once snapAutoMerge 0 (by decide)

/-- C2: a pull request whose required check runs all concluded `success`, that
carries an `ApprovedBy-<user>` label for an approver `<user>` (distinct from
the author, with a dashless username so the source's `split("-")[-1]` recovers
it), and no `hold`, `wip` or `ChangesRequestedBy-*` label, evaluates to
mergeable: the `can-be-merged` label is added and the check run reports
success.  The frame hypotheses fix the remaining evaluator inputs at their
benign values: the pull request is open, has no conflicts, and every
policy-mandated label is present. -/
theorem merge_evaluation_mergeable_when_clean (s : PullRequestSnapshot) (u : String)
    (hm : s.isMerged = false)
    (hmg : s.prMergeable = true)
    (hchecks : ∀ cr ∈ s.checkRuns, cr.name ∈ s.requiredChecks → cr.name ≠ canBeMergedStr →
        cr.conclusion = some successStr ∧ cr.status ≠ inProgressStr)
    (hlab : approvedByLabelPref ++ u ∈ s.labels)
    (hu : u ∈ s.approvers) (hne : u ≠ s.parentCommitter) (hd : '-' ∉ u.data)
    (hnohold : holdLabelStr ∉ s.labels) (hnowip : wipStr ∉ s.labels)
    (hnocr : ∀ l ∈ s.labels,
        strContainsSub (lowerStr l) (lowerStr changedRequestedByLabelPref) = false)
    (hreq : ∀ r ∈ s.canBeMergedRequiredLabels, r ∈ s.labels) :
    (checkIfCanBeMerged s).decision
        = Decision.isMergeable (decide (s.parentCommitter ∈ s.autoMergeUsers))
      ∧ (checkIfCanBeMerged s).report = CheckReport.reportSuccess
      ∧ canBeMergedStr ∈ (checkIfCanBeMerged s).labels := by
  have happ : prApproved s = true := by
    unfold prApproved
    rw [List.any_eq_true]
    refine ⟨approvedByLabelPref ++ u, hlab, ?_⟩
    unfold approvedLabelMatch
    rw [strContainsSub_self_append, lastSplitDash_approvedBy u hd]
    simp [hu, Ne.symm hne]
  have hinprog : checkRunsInProgressNames s = [] := by
    unfold checkRunsInProgressNames checkRunsInProgress
    rw [List.filter_eq_nil_iff.mpr]
    · rfl
    intro cr hcr h
    unfold inProgressPred at h
    rw [Bool.and_eq_true, Bool.and_eq_true] at h
    obtain ⟨⟨hst, hnm⟩, hrq⟩ := h
    have hmem : cr.name ∈ s.requiredChecks := of_decide_eq_true hrq
    have hnme : cr.name ≠ canBeMergedStr := bne_iff_ne.mp hnm
    have hstatus := (hchecks cr hcr hmem hnme).2
    exact hstatus (beq_iff_eq.mp hst)
  have hfailed : failedCheckRuns s = [] := by
    unfold failedCheckRuns
    rw [List.filter_eq_nil_iff.mpr]
    · rfl
    intro cr hcr h
    unfold failedPred at h
    rw [Bool.not_eq_true'] at h
    rw [Bool.or_eq_false_iff, Bool.or_eq_false_iff, Bool.or_eq_false_iff] at h
    obtain ⟨⟨⟨hnm, hcs⟩, _⟩, hrq⟩ := h
    rw [Bool.not_eq_false'] at hrq
    have hmem : cr.name ∈ s.requiredChecks := of_decide_eq_true hrq
    have hnme : cr.name ≠ canBeMergedStr := fun e => by
      rw [e] at hnm
      simp at hnm
    have hconc := (hchecks cr hcr hmem hnme).1
    rw [hconc] at hcs
    simp at hcs
  have hcrr : changedRequestReasons s = [] := by
    unfold changedRequestReasons
    rw [List.filterMap_eq_nil_iff.mpr]
    intro l hl
    unfold changedRequestLabelReason
    rw [hnocr l hl]
    rfl
  have hmiss : missingRequiredLabels s = [] := by
    unfold missingRequiredLabels
    rw [List.filter_eq_nil_iff.mpr]
    intro r hr h
    exact absurd (hreq r hr) (by simpa using h)
  have hfr : failureReasons s = [] := by
    unfold failureReasons reasonInProgress reasonHold reasonWip reasonNotMergeable
      reasonFailedChecks reasonMissingLabels reasonNotApproved
    rw [hinprog, hfailed, hcrr, hmiss, happ, hmg]
    simp [hnohold, hnowip]
  have e2 : checkIfCanBeMerged s = checkIfCanBeMergedBody s := by
    unfold checkIfCanBeMerged
    rw [hm]
    rfl
  rw [e2]
  unfold checkIfCanBeMergedBody
  rw [happ, hfr, if_pos (show (true && ([] : List String).isEmpty) = true from rfl)]
  exact ⟨rfl, rfl, mem_addLabel_cbm s.labels⟩

/-- C2 witness: the clean snapshot `snapClean` with approver `alice`. -/
theorem merge_evaluation_mergeable_when_clean_witness :
    (checkIfCanBeMerged snapClean).decision
        = Decision.isMergeable (decide (snapClean.parentCommitter ∈ snapClean.autoMergeUsers))
      ∧ (checkIfCanBeMerged snapClean).report = CheckReport.reportSuccess
      ∧ canBeMergedStr ∈ (checkIfCanBeMerged snapClean).labels :=
  merge_evaluation_mergeable_when_clean snapClean "alice" (by decide) (by decide)
    (by decide) (by decide) (by decide) (by decide) (by decide) (by decide) (by decide)
    (by decide) (by decide)

/-- C3 counterexample: the claim fails for an approver username containing the
separator `'-'`.  The approver `bob-smith` has requested changes
(`ChangesRequestedBy-bob-smith` is present) and `ApprovedBy-alice` is present,
yet the evaluation returns mergeable with a success report instead of
blocked: `split("-")[-1]` recovers `smith`, which is not an approver, so the
veto is missed. -/
theorem dash_username_veto_missed :
    (checkIfCanBeMerged snapDashVeto).decision = Decision.isMergeable false
      ∧ (checkIfCanBeMerged snapDashVeto).report = CheckReport.reportSuccess := by decide

/-- C3 (amended): a `ChangesRequestedBy-<user>` label for a designated
approver `<user>` forces the evaluation to blocked with the
changed-requests failure reason, even when an `ApprovedBy-<other>` label is
present — for every approver username that does not contain the separator
character `'-'` (for usernames containing `'-'`, the source recovers only the
substring after the last dash and the veto is missed, see the
counterexample). -/
theorem veto_blocks_merge_for_dashless_approver (s : PullRequestSnapshot) (u : String)
    (hm : s.isMerged = false) (hu : u ∈ s.approvers) (hd : '-' ∉ u.data)
    (hlab : changedRequestedByLabelPref ++ u ∈ s.labels) :
    (checkIfCanBeMerged s).decision = Decision.blocked (failureReasons s)
      ∧ "PR has changed requests from approvers\n" ∈ failureReasons s
      ∧ (checkIfCanBeMerged s).report
          = CheckReport.reportFailure (String.join (failureReasons s)) := by
  have hreason : "PR has changed requests from approvers\n" ∈ changedRequestReasons s := by
    unfold changedRequestReasons
    rw [List.mem_filterMap]
    refine ⟨changedRequestedByLabelPref ++ u, hlab, ?_⟩
    unfold changedRequestLabelReason
    rw [strContainsSub_self_append, lastSplitDash_changesRequested u hd, if_pos rfl,
      if_pos hu]
  have hmem : "PR has changed requests from approvers\n" ∈ failureReasons s := by
    unfold failureReasons
    simp only [List.mem_append]
    exact Or.inl (Or.inl (Or.inr hreason))
  have hne2 : failureReasons s ≠ [] := by
    intro hnil
    rw [hnil] at hmem
    exact absurd hmem (List.not_mem_nil _)
  have hie : (failureReasons s).isEmpty = false := by
    cases hfr : failureReasons s with
    | nil => exact absurd hfr hne2
    | cons a tl => rfl
  have hcond : ¬(prApproved s && (failureReasons s).isEmpty) = true := by
    rw [hie, Bool.and_false]
    exact Bool.false_ne_true
  have e2 : checkIfCanBeMerged s = checkIfCanBeMergedBody s := by
    unfold checkIfCanBeMerged
    rw [hm]
    rfl
  rw [e2]
  unfold checkIfCanBeMergedBody
  rw [if_neg hcond]
  exact ⟨rfl, hmem, rfl⟩

/-- C3 witness: the amended theorem at the concrete veto snapshot (approver
`dave`, no dash in the username, approval by `alice` also present). -/
theorem veto_blocks_merge_for_dashless_approver_witness :
    (checkIfCanBeMerged snapVeto).decision = Decision.blocked (failureReasons snapVeto)
      ∧ "PR has changed requests from approvers\n" ∈ failureReasons snapVeto
      ∧ (checkIfCanBeMerged snapVeto).report
          = CheckReport.reportFailure (String.join (failureReasons snapVeto)) :=
  veto_blocks_merge_for_dashless_approver snapVeto "dave" (by decide) (by decide)
    (by decide) (by decide)

/-- C4: a required check run (other than `can-be-merged` itself) whose status
is `in_progress` forces the evaluation to blocked: its name appears in the
in-progress list, the in-progress failure reason naming that list is among the
failure reasons, the decision is `blocked`, and the `can-be-merged` check run
is never reported as success. -/
theorem in_progress_check_blocks_merge (s : PullRequestSnapshot) (cr : CheckRun)
    (hm : s.isMerged = false) (hcr : cr ∈ s.checkRuns) (hst : cr.status = inProgressStr)
    (hname : cr.name ≠ canBeMergedStr) (hreq : cr.name ∈ s.requiredChecks) :
    cr.name ∈ checkRunsInProgressNames s
      ∧ ("Some required check runs in progress "
            ++ commaJoin (checkRunsInProgressNames s) ++ "\n") ∈ failureReasons s
      ∧ (checkIfCanBeMerged s).decision = Decision.blocked (failureReasons s)
      ∧ (checkIfCanBeMerged s).report ≠ CheckReport.reportSuccess := by
  have hmemn : cr.name ∈ checkRunsInProgressNames s := by
    unfold checkRunsInProgressNames checkRunsInProgress
    refine List.mem_map_of_mem CheckRun.name (List.mem_filter.mpr ⟨hcr, ?_⟩)
    unfold inProgressPred
    rw [Bool.and_eq_true, Bool.and_eq_true]
    exact ⟨⟨beq_iff_eq.mpr hst, bne_iff_ne.mpr hname⟩, decide_eq_true hreq⟩
  have hie : (checkRunsInProgressNames s).isEmpty = false := by
    cases hfr : checkRunsInProgressNames s with
    | nil => rw [hfr] at hmemn; exact absurd hmemn (List.not_mem_nil _)
    | cons a tl => rfl
  have hchunk : ("Some required check runs in progress "
      ++ commaJoin (checkRunsInProgressNames s) ++ "\n") ∈ reasonInProgress s := by
    unfold reasonInProgress
    rw [hie]
    exact List.mem_singleton.mpr rfl
  have hmem : ("Some required check runs in progress "
      ++ commaJoin (checkRunsInProgressNames s) ++ "\n") ∈ failureReasons s := by
    unfold failureReasons
    simp only [List.mem_append]
    exact Or.inl (Or.inl (Or.inl (Or.inl (Or.inl (Or.inl (Or.inl hchunk))))))
  have hne2 : failureReasons s ≠ [] := by
    intro hnil
    rw [hnil] at hmem
    exact absurd hmem (List.not_mem_nil _)
  have hie2 : (failureReasons s).isEmpty = false := by
    cases hfr : failureReasons s with
    | nil => exact absurd hfr hne2
    | cons a tl => rfl
  have hcond : ¬(prApproved s && (failureReasons s).isEmpty) = true := by
    rw [hie2, Bool.and_false]
    exact Bool.false_ne_true
  have e2 : checkIfCanBeMerged s = checkIfCanBeMergedBody s := by
    unfold checkIfCanBeMerged
    rw [hm]
    rfl
  rw [e2]
  unfold checkIfCanBeMergedBody
  rw [if_neg hcond]
  refine ⟨hmemn, hmem, rfl, ?_⟩
  intro hcontra
  cases hcontra

/-- C4 witness: the snapshot whose single required check `tox` is still in
progress. -/
theorem in_progress_check_blocks_merge_witness :
    (⟨"tox", "in_progress", none⟩ : CheckRun).name ∈ checkRunsInProgressNames snapInProgress
      ∧ ("Some required check runs in progress "
            ++ commaJoin (checkRunsInProgressNames snapInProgress) ++ "\n")
          ∈ failureReasons snapInProgress
      ∧ (checkIfCanBeMerged snapInProgress).decision
          = Decision.blocked (failureReasons snapInProgress)
      ∧ (checkIfCanBeMerged snapInProgress).report ≠ CheckReport.reportSuccess :=
  in_progress_check_blocks_merge snapInProgress ⟨"tox", "in_progress", none⟩
    (by decide) (by decide) (by decide) (by decide) (by decide)

/-- C5: the `labeled`/`unlabeled` handler lowercases the label name and then
tests it with case-sensitive `startswith("ApprovedBy-")` /
`startswith("ChangesRequestedBy-")`, which can never match, so adding or
removing a reviewer label of an approver never invokes the merge-eligibility
evaluation; `hold` and `wip` labels have no trigger branch at all.  Only the
`verified` label (with the verified job enabled) reaches the evaluation —
contradicting the claim that every mergeability-relevant label mutation
re-evaluates. -/
theorem labeled_event_never_triggers_reviewer_reevaluation :
    processLabeledUnlabeled "ApprovedBy-alice" ["alice"] true = false
      ∧ processLabeledUnlabeled "ChangesRequestedBy-alice" ["alice"] true = false
      ∧ processLabeledUnlabeled "hold" ["alice"] true = false
      ∧ processLabeledUnlabeled "wip" ["alice"] true = false
      ∧ processLabeledUnlabeled "verified" ["alice"] true = true := by decide

/-- Auxiliary: the split of a label into the part before the first `size/`
match.  A list of length at most one that contains an element is that
singleton. -/
theorem eq_singleton_of_length_le_one (l : List String) (x : String)
    (hlen : l.length ≤ 1) (hmem : x ∈ l) : l = [x] := by
  cases l with
  | nil => exact absurd hmem (List.not_mem_nil x)
  | cons a tl =>
    cases tl with
    | nil =>
      rcases List.mem_singleton.mp hmem with h
      rw [h]
    | cons b tl2 => simp at hlen

theorem startsWith_size (n : Nat) :
    startsWithStr (sizeLabelPref ++ sizeBucket n) sizeLabelPref = true := by
  unfold startsWithStr
  rw [String.data_append]
  exact isPrefixOf_append_self _ _

theorem sizeLabel_plain (n : Nat) :
    trimStr (sizeLabelPref ++ sizeBucket n) = sizeLabelPref ++ sizeBucket n
      ∧ ¬ (sizeLabelPref ++ sizeBucket n).length > 49 := by
  unfold sizeBucket
  split_ifs <;> exact ⟨by decide, by decide⟩

/-- C7: on every `opened`/`synchronize`, `add_size_label` recomputes the size
bucket from `additions + deletions` with the thresholds `<20 → XS`, `<50 → S`,
`<100 → M`, `<300 → L`, `<500 → XL`, else `XXL`, removes the previous
`size/*` label when a different one must be added, and leaves exactly one
`size/*` label — the computed one — on the pull request.  The hypothesis is
the spec's size-label invariant (at most one `size/*` label present before the
call); the source removes only the first pre-existing size label, so the
invariant is needed. -/
theorem add_size_label_exclusive (labels : List String) (additions deletions : Nat)
    (hinv : (labels.filter (fun l => startsWithStr l sizeLabelPref)).length ≤ 1) :
    (add_size_label labels additions deletions).filter
        (fun l => startsWithStr l sizeLabelPref)
        = [sizeLabelPref ++ sizeBucket (additions + deletions)]
      ∧ ((add_size_label labels additions deletions).filter
          (fun l => startsWithStr l sizeLabelPref)).length = 1
      ∧ (additions + deletions < 20 → sizeBucket (additions + deletions) = "XS")
      ∧ (20 ≤ additions + deletions → additions + deletions < 50 →
          sizeBucket (additions + deletions) = "S")
      ∧ (50 ≤ additions + deletions → additions + deletions < 100 →
          sizeBucket (additions + deletions) = "M")
      ∧ (100 ≤ additions + deletions → additions + deletions < 300 →
          sizeBucket (additions + deletions) = "L")
      ∧ (300 ≤ additions + deletions → additions + deletions < 500 →
          sizeBucket (additions + deletions) = "XL")
      ∧ (500 ≤ additions + deletions → sizeBucket (additions + deletions) = "XXL") := by
  have hmain : (add_size_label labels additions deletions).filter
      (fun l => startsWithStr l sizeLabelPref)
      = [sizeLabelPref ++ sizeBucket (additions + deletions)] := by
    unfold add_size_label
    by_cases hmem : sizeLabelPref ++ sizeBucket (additions + deletions) ∈ labels
    · rw [if_pos hmem]
      exact eq_singleton_of_length_le_one _ _ hinv
        (List.mem_filter.mpr ⟨hmem, startsWith_size _⟩)
    · rw [if_neg hmem]
      rcases hf : labels.filter (fun l => startsWithStr l sizeLabelPref) with _ | ⟨e, t⟩
      · rw [addLabel_eq_of_plain _ _ (sizeLabel_plain _).1 (sizeLabel_plain _).2,
          if_neg hmem, List.filter_append, hf]
        simp [startsWith_size]
      · have ht : t = [] := by
          rw [hf] at hinv
          simp only [List.length_cons] at hinv
          have : t.length = 0 := by omega
          exact List.eq_nil_of_length_eq_zero this
        subst ht
        have hemem : e ∈ labels :=
          List.mem_of_mem_filter (hf ▸ List.mem_cons_self e [])
        have hrm : removeLabel labels e = labels.filter (fun l => l != e) := by
          unfold removeLabel
          rw [if_pos hemem]
        have hSLnm : sizeLabelPref ++ sizeBucket (additions + deletions)
            ∉ labels.filter (fun l => l != e) :=
          fun hmm => hmem (List.mem_of_mem_filter hmm)
        show (addLabel (removeLabel labels e)
            (sizeLabelPref ++ sizeBucket (additions + deletions))).filter
              (fun l => startsWithStr l sizeLabelPref)
            = [sizeLabelPref ++ sizeBucket (additions + deletions)]
        rw [hrm, addLabel_eq_of_plain _ _ (sizeLabel_plain _).1 (sizeLabel_plain _).2,
          if_neg hSLnm, List.filter_append, List.filter_filter]
        have hnil : labels.filter
            (fun a => startsWithStr a sizeLabelPref && (a != e)) = [] := by
          rw [List.filter_eq_nil_iff]
          intro l hl hcontra
          rw [Bool.and_eq_true] at hcontra
          obtain ⟨hs, hne⟩ := hcontra
          have : l ∈ labels.filter (fun l => startsWithStr l sizeLabelPref) :=
            List.mem_filter.mpr ⟨hl, hs⟩
          rw [hf] at this
          rw [List.mem_singleton.mp this] at hne
          simp at hne
        rw [hnil]
        simp [startsWith_size]
  refine ⟨hmain, by rw [hmain]; rfl, ?_, ?_, ?_, ?_, ?_, ?_⟩
  · intro h
    unfold sizeBucket
    rw [if_pos h]
  · intro h1 h2
    unfold sizeBucket
    rw [if_neg (by omega), if_pos h2]
  · intro h1 h2
    unfold sizeBucket
    rw [if_neg (by omega), if_neg (by omega), if_pos h2]
  · intro h1 h2
    unfold sizeBucket
    rw [if_neg (by omega), if_neg (by omega), if_neg (by omega), if_pos h2]
  · intro h1 h2
    unfold sizeBucket
    rw [if_neg (by omega), if_neg (by omega), if_neg (by omega), if_neg (by omega),
      if_pos h2]
  · intro h1
    unfold sizeBucket
    rw [if_neg (by omega), if_neg (by omega), if_neg (by omega), if_neg (by omega),
      if_neg (by omega)]

/-- C7 witness: a pull request carrying `size/L` and an unrelated label gets
exactly the recomputed `size/XS` label for 3 additions and 4 deletions. -/
theorem add_size_label_exclusive_witness :
    (add_size_label ["size/L", "bug"] 3 4).filter (fun l => startsWithStr l sizeLabelPref)
        = [sizeLabelPref ++ sizeBucket (3 + 4)]
      ∧ ((add_size_label ["size/L", "bug"] 3 4).filter
          (fun l => startsWithStr l sizeLabelPref)).length = 1
      ∧ (3 + 4 < 20 → sizeBucket (3 + 4) = "XS")
      ∧ (20 ≤ 3 + 4 → 3 + 4 < 50 → sizeBucket (3 + 4) = "S")
      ∧ (50 ≤ 3 + 4 → 3 + 4 < 100 → sizeBucket (3 + 4) = "M")
      ∧ (100 ≤ 3 + 4 → 3 + 4 < 300 → sizeBucket (3 + 4) = "L")
      ∧ (300 ≤ 3 + 4 → 3 + 4 < 500 → sizeBucket (3 + 4) = "XL")
      ∧ (500 ≤ 3 + 4 → sizeBucket (3 + 4) = "XXL") :=
  add_size_label_exclusive ["size/L", "bug"] 3 4 (by decide)

/-- C8 counterexample: the claim keys the verified reset on the pusher of the
new commit, but the source keys it on the pull-request author
(`parent_committer`).  With the author `alice` auto-trusted and the pusher
`mallory` untrusted, the code adds the `verified` label and sets the check to
success, while the claim (mirrored by `processSynchronizeSpec`, which follows
the spec's pusher wording) requires the reset to queued. -/
theorem synchronize_verified_keyed_on_author_not_pusher :
    syncEventAuthorTrusted.lastCommitter ∉ syncEventAuthorTrusted.autoMergeUsers
      ∧ (processSynchronize syncEventAuthorTrusted).verifiedCheck = VerifiedCheck.setSuccess
      ∧ verifiedLabelStr ∈ (processSynchronize syncEventAuthorTrusted).labels
      ∧ (processSynchronizeSpec syncEventAuthorTrusted).verifiedCheck
          = VerifiedCheck.setQueued := by decide

/-- C8 (amended): on every `synchronize` event, all `ApprovedBy-*`,
`CommentedBy-*` and `ChangesRequestedBy-*` labels are removed, and — when the
verified job is enabled — the `verified` check is reset to queued with the
`verified` label removed, unless the pull request's author (the parent
committer, not the pusher of the new commit) is auto-trusted, in which case
the `verified` label is added and the check is set to success. -/
theorem synchronize_resets_review_state (e : SyncEvent) :
    (∀ l ∈ (processSynchronize e).labels,
        startsWithStr l approvedByLabelPref = false
          ∧ startsWithStr l commentedByLabelPref = false
          ∧ startsWithStr l changedRequestedByLabelPref = false)
      ∧ (e.verifiedJob = true → e.parentCommitter ∈ e.autoMergeUsers →
          (processSynchronize e).verifiedCheck = VerifiedCheck.setSuccess
            ∧ verifiedLabelStr ∈ (processSynchronize e).labels)
      ∧ (e.verifiedJob = true → e.parentCommitter ∉ e.autoMergeUsers →
          (processSynchronize e).verifiedCheck = VerifiedCheck.setQueued
            ∧ verifiedLabelStr ∉ (processSynchronize e).labels) := by
  have hfilt : ∀ l ∈ e.labels.filter (fun l => !isReviewLabel l),
      startsWithStr l approvedByLabelPref = false
        ∧ startsWithStr l commentedByLabelPref = false
        ∧ startsWithStr l changedRequestedByLabelPref = false := by
    intro l hl
    have hrl : isReviewLabel l = false := by
      have := (List.mem_filter.mp hl).2
      rwa [Bool.not_eq_true'] at this
    unfold isReviewLabel at hrl
    rw [Bool.or_eq_false_iff, Bool.or_eq_false_iff, Bool.or_eq_false_iff] at hrl
    exact ⟨hrl.1.1.1, hrl.1.1.2, hrl.1.2⟩
  have hverplain : trimStr verifiedLabelStr = verifiedLabelStr := by decide
  have hverlen : ¬ verifiedLabelStr.length > 49 := by decide
  have hvrev : startsWithStr verifiedLabelStr approvedByLabelPref = false
      ∧ startsWithStr verifiedLabelStr commentedByLabelPref = false
      ∧ startsWithStr verifiedLabelStr changedRequestedByLabelPref = false := by decide
  unfold processSynchronize processVerified
  by_cases hv : e.verifiedJob
  · rw [hv]
    by_cases ht : e.parentCommitter ∈ e.autoMergeUsers
    · rw [if_neg (by simp), if_pos ht]
      refine ⟨?_, fun _ _ => ⟨rfl, ?_⟩, fun _ hcontra => absurd ht hcontra⟩
      · intro l hl
        have hl' := hl
        rw [addLabel_eq_of_plain _ _ hverplain hverlen] at hl'
        by_cases hmm : verifiedLabelStr ∈ e.labels.filter (fun l => !isReviewLabel l)
        · rw [if_pos hmm] at hl'
          exact hfilt l hl'
        · rw [if_neg hmm] at hl'
          rcases List.mem_append.mp hl' with h | h
          · exact hfilt l h
          · rw [List.mem_singleton.mp h]
            exact hvrev
      · exact mem_addLabel_self _ _ hverplain hverlen
    · rw [if_neg (by simp), if_neg ht]
      refine ⟨?_, fun _ hcontra => absurd hcontra ht, fun _ _ => ⟨rfl, ?_⟩⟩
      · intro l hl
        unfold removeLabel at hl
        by_cases hmm : verifiedLabelStr ∈ e.labels.filter (fun l => !isReviewLabel l)
        · rw [if_pos hmm] at hl
          exact hfilt l (List.mem_of_mem_filter hl)
        · rw [if_neg hmm] at hl
          exact hfilt l hl
      · exact not_mem_removeLabel _ _
  · have hv' : e.verifiedJob = false := by
      cases h : e.verifiedJob
      · rfl
      · exact absurd h hv
    rw [hv', if_pos (by rfl)]
    exact ⟨hfilt, fun hc _ => absurd hc Bool.false_ne_true,
      fun hc _ => absurd hc Bool.false_ne_true⟩

/-- C8 witness: the amended theorem's untrusted-author branch at the concrete
synchronize event. -/
theorem synchronize_resets_review_state_witness :
    (processSynchronize syncEventUntrusted).verifiedCheck = VerifiedCheck.setQueued
      ∧ verifiedLabelStr ∉ (processSynchronize syncEventUntrusted).labels :=
  (synchronize_resets_review_state syncEventUntrusted).2.2 (by decide) (by decide)

/-- C9: `get_check_run_text` is documented (source comment, line 1764) to
respect the platform's 65535-character limit, but it tests
`len(err) + len(out) > 65534` before adding the 10 characters of code-fence
formatting: with a 65534-character stderr and empty stdout the returned text
has 65544 characters, exceeding the limit without truncation. -/
theorem check_run_text_exceeds_platform_limit :
    (get_check_run_text errAt65534 "").length = 65544 ∧ 65535 < 65544 := by
  have hlen : errAt65534.length = 65534 := by
    show (List.replicate 65534 'a').length = 65534
    rw [List.length_replicate]
  have hleft : (get_check_run_text errAt65534 "").length = 65544 := by
    unfold get_check_run_text
    rw [if_neg (by rw [hlen]; decide)]
    rw [String.length_append, String.length_append, String.length_append,
      String.length_append, hlen]
    decide
  exact ⟨hleft, by decide⟩

/-- C10: when any exception escapes the body of the merge-eligibility
evaluation on an unmerged pull request — whatever partial label mutations the
body had performed — the handler catches it: the `can-be-merged` check run is
reported as failure with the explanatory text, the `can-be-merged` label is
absent afterwards, the outcome is blocked, no merge is performed, and the
exception does not propagate (the exception-free run coincides with the plain
evaluation). -/
theorem merge_evaluation_exception_contained (s : PullRequestSnapshot)
    (pl : List String) (hm : s.isMerged = false) :
    (checkIfCanBeMergedExc s (some pl)).report = CheckReport.reportFailure mergeCheckErrText
      ∧ canBeMergedStr ∉ (checkIfCanBeMergedExc s (some pl)).labels
      ∧ (checkIfCanBeMergedExc s (some pl)).decision = Decision.blocked [mergeCheckErrText]
      ∧ (checkIfCanBeMergedExc s (some pl)).mergePerformed = false
      ∧ checkIfCanBeMergedExc s none = checkIfCanBeMerged s := by
  have he : checkIfCanBeMergedExc s (some pl)
      = { decision := Decision.blocked [mergeCheckErrText]
          labels := removeLabel pl canBeMergedStr
          report := CheckReport.reportFailure mergeCheckErrText
          mergePerformed := false } := by
    unfold checkIfCanBeMergedExc
    rw [hm]
    rfl
  have hnone : checkIfCanBeMergedExc s none = checkIfCanBeMerged s := by
    unfold checkIfCanBeMergedExc checkIfCanBeMerged
    rw [hm]
  rw [he]
  exact ⟨rfl, not_mem_removeLabel pl canBeMergedStr, rfl, rfl, hnone⟩

/-- C10 witness: the exception path at the blocked snapshot with a partial
label state that still carries `can-be-merged`. -/
theorem merge_evaluation_exception_contained_witness :
    (checkIfCanBeMergedExc snapBlocked (some excLabels)).report
        = CheckReport.reportFailure mergeCheckErrText
      ∧ canBeMergedStr ∉ (checkIfCanBeMergedExc snapBlocked (some excLabels)).labels
      ∧ (checkIfCanBeMergedExc snapBlocked (some excLabels)).decision
          = Decision.blocked [mergeCheckErrText]
      ∧ (checkIfCanBeMergedExc snapBlocked (some excLabels)).mergePerformed = false
      ∧ checkIfCanBeMergedExc snapBlocked none = checkIfCanBeMerged snapBlocked :=
  merge_evaluation_exception_contained snapBlocked excLabels (by decide)

end WebhookVerify

